import Mathlib

/-!
Verification of the pisa repository's flux stages and hypothesis-testing
post-processing script against its natural-language specification.

The Python sources embedded here are:
  * `pisa/analysis/hypo_testing_injparamscan_postprocess.py`
      (`extract_trials`, `extract_fit`, `calculate_deltachi2_signifiances`)
  * `pisa/stages/flux/mceq_barr.py`
      (`antipion_production`, `spectral_index_scale`, `apply_sys_kernel`)
  * `pisa/stages/flux/honda.py`
      (`load_2D_table`, `compute_2D_outputs`, `compute_3D_outputs`,
       `_compute_outputs`, `apply_ratio_scale`, `apply_delta_index`,
       `apply_nue_numu_ratio`, `apply_nu_nubar_ratio`)

Numpy arrays are modelled as `List ℝ` / `List (List ℝ)`; scipy's spline
fitting and evaluation routines are external library calls and are
abstracted as explicit function parameters, while every piece of data the
code hands to them (knot positions, cumulated values, smoothing factors)
is embedded concretely.  Python dictionaries keyed by strings are modelled
as association lists; fallible operations return `Except`/`Option`.
-/

/- ------------------------------------------------------------------ -/
/- Generic helpers (computable part)                                  -/
/- ------------------------------------------------------------------ -/

/-- Substring test: Python's `needle in haystack` on strings, on the
underlying character lists. -/
def hasInfix (needle : List Char) : List Char → Bool
  | [] => needle.isEmpty
  | c :: rest => needle.isPrefixOf (c :: rest) || hasInfix needle rest

/-- Collecting map over a list where each element may fail to parse;
mirrors a Python loop of appends in which the first failing element
raises. -/
def mapOpt (f : α → Option β) : List α → Option (List β)
  | [] => some []
  | a :: as =>
    match f a with
    | Option.none => Option.none
    | some b =>
      match mapOpt f as with
      | Option.none => Option.none
      | some bs => some (b :: bs)

/- ------------------------------------------------------------------ -/
/- hypo_testing_injparamscan_postprocess.py : extract_trials           -/
/- ------------------------------------------------------------------ -/

/-- The folders `extract_trials` parses: entries of the log directory whose
name contains neither `.pckl` nor `Plots`
(`if '.pckl' not in folder and 'Plots' not in folder`). -/
def trialFolders (logdirContent : List String) : List String :=
  logdirContent.filter
    (fun f => !(hasInfix ".pckl".toList f.toList) && !(hasInfix "Plots".toList f.toList))

/-- Fuel-driven worker for `splitChars`; the fuel is an upper bound on the
number of characters consumed, so with fuel `hay.length` and a non-empty
separator the guard branch is never taken. -/
def splitCharsGo (needle : List Char) : ℕ → List Char → List Char → List (List Char)
  | _, [], acc => [acc.reverse]
  | 0, hay, acc => [acc.reverse ++ hay]
  | fuel + 1, c :: rest, acc =>
    if needle.isPrefixOf (c :: rest) then
      acc.reverse :: splitCharsGo needle fuel ((c :: rest).drop needle.length) []
    else splitCharsGo needle fuel rest (c :: acc)

/-- Python's `str.split(sep)` on character lists: split on each
non-overlapping occurrence of `needle`, scanning left to right. -/
def splitChars (needle hay : List Char) : List (List Char) :=
  splitCharsGo needle hay.length hay []

/-- `folder.split('toy')[1].split('_')[1]` — the injected truth model name
encoded in a folder name; `Option.none` models Python's `IndexError`. -/
def toyName (folder : String) : Option (List Char) :=
  ((splitChars "toy".toList folder.toList).get? 1).bind
    (fun s => (splitChars "_".toList s).get? 1)

/-- `folder.split('toy')[1].split('_')[2]` — the scanned-variable name
encoded in a folder name; `Option.none` models Python's `IndexError`. -/
def scanVar (folder : String) : Option (List Char) :=
  ((splitChars "toy".toList folder.toList).get? 1).bind
    (fun s => (splitChars "_".toList s).get? 2)

/-- Outcome of the folder-name consistency check at the top of
`extract_trials`. -/
inductive TrialsCheck where
  | ok : TrialsCheck
  | valueError : TrialsCheck
  | indexError : TrialsCheck
deriving DecidableEq

/-- The folder-name consistency check at the top of `extract_trials`:
collect `toy_names` and `scan_variables` from the qualifying folder names
(an unparseable name raises `IndexError`, as does `toy_names[0]` on an
empty collection), then raise `ValueError` unless all toy names agree and
all scanned-variable names agree. -/
def extract_trials_check (logdirContent : List String) : TrialsCheck :=
  match mapOpt toyName (trialFolders logdirContent),
        mapOpt scanVar (trialFolders logdirContent) with
  | some toyNames, some scanVars =>
    match toyNames with
    | [] => TrialsCheck.indexError
    | t0 :: _ =>
      if toyNames.all (fun t => t == t0) then
        match scanVars with
        | [] => TrialsCheck.indexError
        | s0 :: _ =>
          if scanVars.all (fun s => s == s0) then TrialsCheck.ok
          else TrialsCheck.valueError
      else TrialsCheck.valueError
  | _, _ => TrialsCheck.indexError

/- ------------------------------------------------------------------ -/
/- hypo_testing_injparamscan_postprocess.py : extract_fit              -/
/- ------------------------------------------------------------------ -/

/-- The `keys` argument of `extract_fit`: `None`, a single string, or an
iterable of strings. -/
inductive FitKeys where
  | noKeys : FitKeys
  | oneKey (s : String) : FitKeys
  | manyKeys (ks : List String) : FitKeys

/-- `extract_fit(fpath, keys)`.  The file contents are a mapping, modelled
as an association list; `Option.none` for the contents models an unreadable
file, turned into the `RuntimeError`.  A single string becomes a
one-element list (`keys = [keys]`), and the loop
`for key in info.keys(): if key not in keys: info.pop(key)` keeps exactly
the entries whose key is among `keys`. -/
def extract_fit {V : Type} (fileContents : Option (List (String × V)))
    (keys : FitKeys) : Except String (List (String × V)) :=
  match fileContents with
  | Option.none => Except.error "Cannot read from file"
  | some info =>
    match keys with
    | FitKeys.noKeys => Except.ok info
    | FitKeys.oneKey s => Except.ok (info.filter (fun kv => [s].contains kv.1))
    | FitKeys.manyKeys ks => Except.ok (info.filter (fun kv => ks.contains kv.1))

/-- Which keys a `FitKeys` value retains. -/
def keyKept : FitKeys → String → Prop
  | FitKeys.noKeys, _ => True
  | FitKeys.oneKey s, k => k = s
  | FitKeys.manyKeys ks, k => k ∈ ks

noncomputable section

/- ------------------------------------------------------------------ -/
/- Real-valued array helpers                                          -/
/- ------------------------------------------------------------------ -/

/-- Entry `(i, j)` of a two-dimensional array modelled as a list of rows. -/
def ent (m : List (List ℝ)) (i j : ℕ) : ℝ := (m.getD i []).getD j 0

/-- Element-wise combination of two 2-d arrays (numpy broadcasting of a
binary operation over arrays of equal shape). -/
def map2D (f : ℝ → ℝ → ℝ) (a b : List (List ℝ)) : List (List ℝ) :=
  List.zipWith (List.zipWith f) a b

/-- Sum of all entries of a 2-d array (`arr.sum()`). -/
def sum2 (m : List (List ℝ)) : ℝ := (m.map List.sum).sum

/-- `np.dot` of two vectors. -/
def dot (xs ys : List ℝ) : ℝ := (List.zipWith (fun x y => x * y) xs ys).sum

/-- `np.linspace a b n`. -/
def linspace (a b : ℝ) (n : ℕ) : List ℝ :=
  (List.range n).map (fun i => a + (b - a) * i / (n - 1))

/-- The cumulating loop used by the integral-preserving method:
start a running total at `t`, record it, and after adding each list
element record the new total.  `cumFromZero 0 xs` is the list
`[0, xs₀, xs₀+xs₁, …]` of length `xs.length + 1`. -/
def cumFromZero (t : ℝ) : List ℝ → List ℝ
  | [] => [t]
  | x :: xs => t :: cumFromZero (t + x) xs

/-- `np.array(m).T` for a rectangular list of rows with `cols` columns. -/
def transposeRect (m : List (List ℝ)) (cols : ℕ) : List (List ℝ) :=
  (List.range cols).map (fun j => m.map (fun row => row.getD j 0))

/-- First component of `np.meshgrid a b`: `b.length` copies of `a`. -/
def meshgridX (a b : List ℝ) : List (List ℝ) := b.map (fun _ => a)

/-- Second component of `np.meshgrid a b`: rows constant at each `b` value. -/
def meshgridY (a b : List ℝ) : List (List ℝ) :=
  b.map (fun bi => a.map (fun _ => bi))

/- ------------------------------------------------------------------ -/
/- hypo_testing_injparamscan_postprocess.py :                          -/
/-   calculate_deltachi2_signifiances                                  -/
/- ------------------------------------------------------------------ -/

/-- `calculate_deltachi2_signifiances(WO_to_TO_metrics, TO_to_WO_metrics)`:
`num = WO + TO; denom = 2 * np.sqrt(WO); return num / denom`, with the
numpy element-wise operations modelled on lists. -/
def calculate_deltachi2_signifiances (WO_to_TO_metrics TO_to_WO_metrics : List ℝ) :
    List ℝ :=
  let num := List.zipWith (fun a b => a + b) WO_to_TO_metrics TO_to_WO_metrics
  let denom := WO_to_TO_metrics.map (fun w => 2 * Real.sqrt w)
  List.zipWith (fun a b => a / b) num denom

/- ------------------------------------------------------------------ -/
/- mceq_barr.py                                                        -/
/- ------------------------------------------------------------------ -/

/-- `antipion_production(barr_var, pion_ratio)`:
combine the pi+ Barr parameter and the pi+/pi- ratio into the pi- Barr
parameter, `((1 + barr_var) / (1 + pion_ratio)) - 1`. -/
def antipion_production (barr_var pion_ratio : ℝ) : ℝ :=
  ((1 + barr_var) / (1 + pion_ratio)) - 1

/-- `spectral_index_scale(true_energy, energy_pivot, delta_index)`:
`np.power(true_energy / energy_pivot, delta_index)`. -/
def spectral_index_scale (true_energy energy_pivot delta_index : ℝ) : ℝ :=
  (true_energy / energy_pivot) ^ delta_index

/-- `apply_sys_kernel` for one event:
`result = nu_flux_nominal * spectral_index_scale(...)`,
`result += np.dot(gradients, gradient_params)`,
then `result[result < 0.0] = 0.0`. -/
def apply_sys_kernel (true_energy true_coszen delta_index energy_pivot : ℝ)
    (nu_flux_nominal : List ℝ) (gradients : List (List ℝ))
    (gradient_params : List ℝ) : List ℝ :=
  let scale := spectral_index_scale true_energy energy_pivot delta_index
  let result := nu_flux_nominal.map (fun nom => nom * scale)
  let result := List.zipWith (fun r g => r + g) result
    (gradients.map (fun grow => dot grow gradient_params))
  result.map (fun x => if x < 0 then 0 else x)

/- ------------------------------------------------------------------ -/
/- honda.py : apply_ratio_scale and the ratio systematics              -/
/- ------------------------------------------------------------------ -/

/-- `honda.apply_ratio_scale(map1, map2, ratio_scale)`:
`scaled_map2 = (map1 + map2) / (1 + ratio_scale * (map1 / map2))`,
`scaled_map1 = ratio_scale * (map1 / map2) * scaled_map2`,
with maps as 2-d histograms combined bin by bin. -/
def apply_ratio_scale (map1 map2 : List (List ℝ)) (ratio_scale : ℝ) :
    List (List ℝ) × List (List ℝ) :=
  let orig_map_sum := map2D (fun a b => a + b) map1 map2
  let orig_map_ratio := map2D (fun a b => a / b) map1 map2
  let scaled_map2 := map2D (fun a b => a / b) orig_map_sum
    (orig_map_ratio.map (fun row => row.map (fun r => 1 + ratio_scale * r)))
  let scaled_map1 := map2D (fun a b => a * b)
    (orig_map_ratio.map (fun row => row.map (fun r => ratio_scale * r)))
    scaled_map2
  (scaled_map1, scaled_map2)

/-- The four flux maps handled by the honda stage. -/
structure FluxMaps where
  numu : List (List ℝ)
  numubar : List (List ℝ)
  nue : List (List ℝ)
  nuebar : List (List ℝ)

/-- `honda.apply_nue_numu_ratio`: rescale (nue, numu) and (nuebar, numubar)
by the `nue_numu_ratio` parameter using `apply_ratio_scale`. -/
def apply_nue_numu_ratio (maps : FluxMaps) (ratio : ℝ) : FluxMaps :=
  let p := apply_ratio_scale maps.nue maps.numu ratio
  let pbar := apply_ratio_scale maps.nuebar maps.numubar ratio
  { numu := p.2, numubar := pbar.2, nue := p.1, nuebar := pbar.1 }

/-- `honda.apply_nu_nubar_ratio`: rescale (nue, nuebar) and (numu, numubar)
by the `nu_nubar_ratio` parameter using `apply_ratio_scale`. -/
def apply_nu_nubar_ratio (maps : FluxMaps) (ratio : ℝ) : FluxMaps :=
  let pe := apply_ratio_scale maps.nue maps.nuebar ratio
  let pmu := apply_ratio_scale maps.numu maps.numubar ratio
  { numu := pmu.1, numubar := pmu.2, nue := pe.1, nuebar := pe.2 }

/- ------------------------------------------------------------------ -/
/- honda.py : apply_delta_index and the systematics dispatch           -/
/- ------------------------------------------------------------------ -/

/-- The energy-dependent scale factor of `apply_delta_index`:
`np.power(evals / median_energy, atm_delta_index)` with
`median_energy = evals[len(evals)/2]` (integer division). -/
def delta_index_scale (evals : List ℝ) (atm_delta_index : ℝ) : List ℝ :=
  let median_energy := evals.getD (evals.length / 2) 0
  evals.map (fun e => (e / median_energy) ^ atm_delta_index)

/-- The per-map body of `apply_delta_index`: multiply along the energy
axis (the second axis of the `(coszen, energy)` histogram) by `scale`,
then renormalise by `flux_map.hist.sum() / scaled_flux.hist.sum()`. -/
def apply_delta_index_map (flux_map : List (List ℝ)) (scale : List ℝ) :
    List (List ℝ) :=
  let scaled_flux := flux_map.map (fun row => List.zipWith (fun a b => a * b) row scale)
  let renorm := sum2 flux_map / sum2 scaled_flux
  scaled_flux.map (fun row => row.map (fun x => x * renorm))

/-- `honda.apply_delta_index`: rescale the numu and numubar maps in a
normalisation-preserving way; nue and nuebar are passed through
unchanged. -/
def apply_delta_index (maps : FluxMaps) (evals : List ℝ)
    (atm_delta_index : ℝ) : FluxMaps :=
  let scale := delta_index_scale evals atm_delta_index
  { numu := apply_delta_index_map maps.numu scale,
    numubar := apply_delta_index_map maps.numubar scale,
    nue := maps.nue,
    nuebar := maps.nuebar }

/- ------------------------------------------------------------------ -/
/- honda.py : load_2D_table / compute_2D_outputs, integral-preserving  -/
/- ------------------------------------------------------------------ -/

/-- A 1-d spline produced by `scipy.interpolate.splrep(x, y, s=0)`.
With zero smoothing the fit is a deterministic function of its data, so
the spline is recorded as its knot positions and knot values; the
composite `splev(·, splrep(x, y, s=0), der=1)` (fit once, evaluate the
first derivative) is abstracted as a function argument `splevDer` taking
this data. -/
abbrev Spline := List ℝ × List ℝ

/-- One integral-preserving energy spline of `load_2D_table`: knots are
the 102 log10-energy values `np.linspace(-1.025, 4.025, 102)`, values are
the running totals of `flux * energy` along the row, starting at 0. -/
def mkIpSpline (energies row : List ℝ) : Spline :=
  (linspace (-1.025) 4.025 102,
   cumFromZero 0 (List.zipWith (fun f e => f * e) row energies))

/-- The loop of `load_2D_table` in integral-preserving mode: `CZiter`
starts at 1 and each row of the flux table is stored under the key
`'%.2f' % (1.05 - CZiter*0.1)`.  The keys are encoded here by the same
value in integer hundredths, `105 - 10*CZiter`, an injective encoding of
those strings. -/
def load_ip_go (energies : List ℝ) (cziter : ℤ) :
    List (List ℝ) → List (ℤ × Spline)
  | [] => []
  | row :: rest =>
    (105 - 10 * cziter, mkIpSpline energies row)
      :: load_ip_go energies (cziter + 1) rest

/-- `load_2D_table` in integral-preserving mode: a spline for every table
cosZenith value, keyed as in `load_ip_go`. -/
def load_2D_ip_splines (fluxTable : List (List ℝ)) (energies : List ℝ) :
    List (ℤ × Spline) :=
  load_ip_go energies 1 fluxTable

/-- The keys queried by `compute_2D_outputs` in integral-preserving mode:
`'%.2f' % czkey` for `czkey in np.linspace(-0.95, 0.95, 20)`, in the same
integer-hundredths encoding as `load_ip_go`. -/
def czEvalKeys : List ℤ :=
  (List.range 20).map (fun j : ℕ => -95 + 10 * (j : ℤ))

/-- The per-energy body of `compute_2D_outputs` in integral-preserving
mode: evaluate each stored energy spline's first derivative at
`log10(energyval)` times the log-energy bin width 0.05, accumulate those
20 values starting at 0, spline them over `np.linspace(-1, 1, 21)` with
zero smoothing, and evaluate that spline's first derivative at the
requested cosZenith values times `0.1 / energyval`. -/
def compute_2D_ip_row (splevDer : Spline → ℝ → ℝ) (sd : List (ℤ × Spline))
    (energyval : ℝ) (czvals : List ℝ) : List ℝ :=
  let logenergyval := Real.logb 10 energyval
  let spline_vals := czEvalKeys.map (fun czkey =>
    splevDer ((sd.lookup czkey).getD ([], [])) logenergyval * 0.05)
  let int_spline_vals := cumFromZero 0 spline_vals
  let spline : Spline := (linspace (-1) 1 21, int_spline_vals)
  czvals.map (fun czval => splevDer spline czval * 0.1 / energyval)

/-- `compute_2D_outputs` in integral-preserving mode: build the
per-energy rows, transpose to `(coszen, energy)` orientation, multiply by
the output binning's bin volumes and by `2*pi` (the source's final
transpose guard compares `output_binning.names[0]` against the literal
`'energy'`, which the stage's binnings — named `true_energy` /
`true_coszen` — never match, so it never fires and is omitted). -/
def compute_2D_outputs_ip (splevDer : Spline → ℝ → ℝ) (sd : List (ℤ × Spline))
    (evals czvals : List ℝ) (binVolumes : List (List ℝ)) : List (List ℝ) :=
  let return_table := evals.map (fun e => compute_2D_ip_row splevDer sd e czvals)
  let return_table := transposeRect return_table czvals.length
  let return_table := map2D (fun a b => a * b) return_table binVolumes
  return_table.map (fun row => row.map (fun x => x * (2 * Real.pi)))

/- ------------------------------------------------------------------ -/
/- honda.py : load_2D_table / compute_2D_outputs, bisplrep mode        -/
/- ------------------------------------------------------------------ -/

/-- `flux_dict['coszen'] = np.linspace(0.95, -0.95, 20)`. -/
def honda_coszen_vals : List ℝ := linspace 0.95 (-0.95) 20

/-- `load_2D_table` in bisplrep mode: transpose each flux table
(`flux_dict[key] = flux_dict[key].T`), build the meshgrid of log10
energies against the table cosZenith values, and fit
`bisplrep(logE, C, np.log10(flux_dict[nutype]).T, s=smooth)`.
`scipy.interpolate.bisplrep` is abstracted as the function argument
`bisplrepF`. -/
def load_2D_bisplrep {BSpline : Type}
    (bisplrepF : List (List ℝ) → List (List ℝ) → List (List ℝ) → ℝ → BSpline)
    (fluxTable : List (List ℝ)) (energies : List ℝ) (smooth : ℝ) : BSpline :=
  let fluxT := transposeRect fluxTable energies.length
  let logE := meshgridX (energies.map (Real.logb 10)) honda_coszen_vals
  let C := meshgridY (energies.map (Real.logb 10)) honda_coszen_vals
  let log_flux := transposeRect (fluxT.map (fun r => r.map (Real.logb 10)))
    fluxTable.length
  bisplrepF logE C log_flux smooth

/-- `compute_2D_outputs` in bisplrep mode:
`np.power(10., bisplev(np.log10(evals), czvals, spline)).T`, multiplied
by the bin volumes and by `2*pi` (again the never-firing final transpose
guard is omitted).  `scipy.interpolate.bisplev` is abstracted as the
function argument `bisplevF`, returning the evaluation grid. -/
def compute_2D_outputs_bisplrep {BSpline : Type}
    (bisplevF : List ℝ → List ℝ → BSpline → List (List ℝ)) (spline : BSpline)
    (evals czvals : List ℝ) (binVolumes : List (List ℝ)) : List (List ℝ) :=
  let return_table := bisplevF (evals.map (Real.logb 10)) czvals spline
  let return_table := transposeRect
    (return_table.map (fun r => r.map (fun v => (10:ℝ) ^ v))) czvals.length
  let return_table := map2D (fun a b => a * b) return_table binVolumes
  return_table.map (fun row => row.map (fun x => x * (2 * Real.pi)))

/- ------------------------------------------------------------------ -/
/- honda.py : compute_3D_outputs and the binning dispatch              -/
/- ------------------------------------------------------------------ -/

/-- `honda.compute_3D_outputs`: `hist = np.ones(output_binning.shape) *
27.0` — an explicit placeholder ("For now this just mimics the dummy
functionality"). -/
def compute_3D_outputs (shape : ℕ × ℕ × ℕ) : List (List (List ℝ)) :=
  List.replicate shape.1 (List.replicate shape.2.1
    (List.replicate shape.2.2 ((1 : ℝ) * 27.0)))

/-- Modelled from the spec: the spec asserts that for the 3D binning "the
honda stage's computed output map values are obtained by evaluating the
spline representations built from the flux table loaded from flux_file".
The repository contains no genuine 3D evaluation code
(`compute_3D_outputs` is the placeholder above), so the spline-based
value is modelled after the stage's own 2D bisplrep convention: 10 raised
to the bivariate-spline evaluation at the bin center, times the bin
volume. -/
def spec_3D_spline_value {BSpline : Type}
    (bisplevF : List ℝ → List ℝ → BSpline → List (List ℝ)) (spline : BSpline)
    (logE cz binVolume : ℝ) : ℝ :=
  (10:ℝ) ^ (((bisplevF [logE] [cz] spline).getD 0 []).getD 0 0) * binVolume

/-- The two interpolation modes of the honda stage. -/
inductive FluxMode where
  | bisplrep : FluxMode
  | integralPreserving : FluxMode

/-- The stage's `spline_dict`, whose shape depends on `flux_mode`. -/
inductive SplineDict (BSpline : Type) where
  | bspl (s : BSpline) : SplineDict BSpline
  | ip (s : List (ℤ × Spline)) : SplineDict BSpline

/-- A computed output histogram, 2-d or 3-d depending on the binning. -/
inductive FluxHist where
  | twoD (h : List (List ℝ)) : FluxHist
  | threeD (h : List (List (List ℝ))) : FluxHist

/-- Python `set(a) == set(b)` on name lists. -/
def sameNameSet (a b : List String) : Bool :=
  a.all (fun x => b.contains x) && b.all (fun x => a.contains x)

/-- The per-primary binning dispatch of `honda._compute_outputs` (and the
mode dispatch inside `compute_2D_outputs`): a binning whose names are
`true_energy`/`true_coszen`/`true_azimuth` goes to `compute_3D_outputs`,
a `true_energy`/`true_coszen` binning goes to `compute_2D_outputs`, and
anything else raises `ValueError`; a `spline_dict` whose shape does not
match `flux_mode` fails the source's asserts. -/
def honda_compute_output {BSpline : Type} (mode : FluxMode)
    (splevDer : Spline → ℝ → ℝ)
    (bisplevF : List ℝ → List ℝ → BSpline → List (List ℝ))
    (sd : SplineDict BSpline) (names : List String) (evals czvals : List ℝ)
    (binVolumes : List (List ℝ)) (shape3 : ℕ × ℕ × ℕ) :
    Except String FluxHist :=
  if sameNameSet names ["true_energy", "true_coszen", "true_azimuth"] then
    Except.ok (FluxHist.threeD (compute_3D_outputs shape3))
  else if sameNameSet names ["true_energy", "true_coszen"] then
    match mode, sd with
    | FluxMode.bisplrep, SplineDict.bspl s =>
      Except.ok (FluxHist.twoD
        (compute_2D_outputs_bisplrep bisplevF s evals czvals binVolumes))
    | FluxMode.integralPreserving, SplineDict.ip s =>
      Except.ok (FluxHist.twoD
        (compute_2D_outputs_ip splevDer s evals czvals binVolumes))
    | _, _ => Except.error "spline_dict does not match flux_mode"
  else Except.error "Incompatible output_binning"

/-- The systematics-application tail of `honda._compute_outputs`:
check which of the three systematics differ from their no-op values and
apply, in order, `apply_nue_numu_ratio`, `apply_nu_nubar_ratio` and
`apply_delta_index` to the computed maps. -/
def compute_outputs_sys (maps : FluxMaps) (nue_numu_ratio nu_nubar_ratio
    atm_delta_index : ℝ) (evals : List ℝ) : FluxMaps :=
  if nue_numu_ratio ≠ 1 ∨ nu_nubar_ratio ≠ 1 ∨ atm_delta_index ≠ 0 then
    let m := maps
    let m := if nue_numu_ratio ≠ 1 then apply_nue_numu_ratio m nue_numu_ratio else m
    let m := if nu_nubar_ratio ≠ 1 then apply_nu_nubar_ratio m nu_nubar_ratio else m
    let m := if atm_delta_index ≠ 0 then apply_delta_index m evals atm_delta_index else m
    m
  else maps

end

/- ------------------------------------------------------------------ -/
/- List plumbing lemmas                                                -/
/- ------------------------------------------------------------------ -/

theorem getD_zipWith_real (f : ℝ → ℝ → ℝ) (xs ys : List ℝ) (j : ℕ)
    (hx : j < xs.length) (hy : j < ys.length) :
    (List.zipWith f xs ys).getD j 0 = f (xs.getD j 0) (ys.getD j 0) := by
  have hj : j < (List.zipWith f xs ys).length := by simp; omega
  rw [List.getD_eq_getElem _ _ hj, List.getElem_zipWith,
      List.getD_eq_getElem _ _ hx, List.getD_eq_getElem _ _ hy]

theorem getD_map_real (f : ℝ → ℝ) (xs : List ℝ) (j : ℕ) (hj : j < xs.length) :
    (xs.map f).getD j 0 = f (xs.getD j 0) := by
  have hj' : j < (xs.map f).length := by simpa using hj
  rw [List.getD_eq_getElem _ _ hj', List.getElem_map,
      List.getD_eq_getElem _ _ hj]

theorem getD_row_map2D (f : ℝ → ℝ → ℝ) (a b : List (List ℝ)) (i : ℕ)
    (hia : i < a.length) (hib : i < b.length) :
    (map2D f a b).getD i [] = List.zipWith f (a.getD i []) (b.getD i []) := by
  have hi : i < (map2D f a b).length := by simp [map2D]; omega
  unfold map2D at hi ⊢
  rw [List.getD_eq_getElem _ _ hi, List.getElem_zipWith,
      List.getD_eq_getElem _ _ hia, List.getD_eq_getElem _ _ hib]

theorem getD_row_mapMap (f : ℝ → ℝ) (m : List (List ℝ)) (i : ℕ)
    (hi : i < m.length) :
    (m.map (fun row => row.map f)).getD i [] = (m.getD i []).map f := by
  have hi' : i < (m.map (fun row => row.map f)).length := by simpa using hi
  rw [List.getD_eq_getElem _ _ hi', List.getElem_map,
      List.getD_eq_getElem _ _ hi]

theorem getD_map_any {α β : Type} (f : α → β) (l : List α) (j : ℕ) (d' : β)
    (hj : j < l.length) (d : α) : (l.map f).getD j d' = f (l.getD j d) := by
  have hj' : j < (l.map f).length := by simpa using hj
  rw [List.getD_eq_getElem _ _ hj', List.getElem_map,
      List.getD_eq_getElem _ _ hj]

theorem transposeRect_length (m : List (List ℝ)) (cols : ℕ) :
    (transposeRect m cols).length = cols := by
  simp [transposeRect]

theorem transposeRect_getD (m : List (List ℝ)) (cols i : ℕ) (hi : i < cols) :
    (transposeRect m cols).getD i [] = m.map (fun row => row.getD i 0) := by
  unfold transposeRect
  have hi' : i < ((List.range cols).map
      (fun j => m.map (fun row => row.getD j 0))).length := by simpa using hi
  rw [List.getD_eq_getElem _ _ hi', List.getElem_map, List.getElem_range]

theorem range_map_getD (row : List ℝ) (c : ℕ) (hc : row.length = c) :
    (List.range c).map (fun j => row.getD j 0) = row := by
  apply List.ext_getElem (by simpa using hc.symm)
  intro j h1 h2
  rw [List.getElem_map, List.getElem_range, List.getD_eq_getElem _ _ h2]

theorem getD_replicate {α : Type} (n i : ℕ) (x d : α) (hi : i < n) :
    (List.replicate n x).getD i d = x := by
  rw [List.getD_eq_getElem _ _ (by simpa using hi), List.getElem_replicate]

theorem list_ext_getD (xs ys : List ℝ) (hlen : xs.length = ys.length)
    (h : ∀ j < xs.length, xs.getD j 0 = ys.getD j 0) : xs = ys := by
  apply List.ext_getElem hlen
  intro j h1 h2
  have hx := h j h1
  rwa [List.getD_eq_getElem _ _ h1, List.getD_eq_getElem _ _ h2] at hx

theorem list2_ext_getD (a b : List (List ℝ)) (hlen : a.length = b.length)
    (hrow : ∀ i < a.length, (a.getD i []).length = (b.getD i []).length)
    (hent : ∀ i j, i < a.length → j < (a.getD i []).length →
      ent a i j = ent b i j) : a = b := by
  apply List.ext_getElem hlen
  intro i h1 h2
  have hae : a[i] = a.getD i [] := (List.getD_eq_getElem a [] h1).symm
  have hbe : b[i] = b.getD i [] := (List.getD_eq_getElem b [] h2).symm
  rw [hae, hbe]
  apply list_ext_getD _ _ (hrow i h1)
  intro j hj
  exact hent i j h1 hj

theorem transposeRect_map_transposeRect (m : List (List ℝ)) (c : ℕ)
    (f : ℝ → ℝ) (hrow : ∀ r ∈ m, r.length = c) :
    transposeRect ((transposeRect m c).map (fun r => r.map f)) m.length
      = m.map (fun r => r.map f) := by
  have hmemlen : ∀ i < m.length, (m.getD i []).length = c := by
    intro i hi
    apply hrow
    rw [List.getD_eq_getElem _ _ hi]
    exact List.getElem_mem _
  apply list2_ext_getD
  · rw [transposeRect_length]
    simp
  · intro i hi
    rw [transposeRect_length] at hi
    rw [transposeRect_getD _ _ _ hi,
        getD_map_any (fun r : List ℝ => r.map f) m i [] hi ([] : List ℝ)]
    simp only [List.length_map, transposeRect_length]
    exact (hmemlen i hi).symm
  · intro i j hi hj
    rw [transposeRect_length] at hi
    rw [transposeRect_getD _ _ _ hi] at hj
    simp only [List.length_map, transposeRect_length] at hj
    unfold ent
    rw [transposeRect_getD _ _ _ hi,
        getD_map_any (fun row : List ℝ => row.getD i 0) _ j (0:ℝ)
          (by simp [transposeRect_length]; omega) ([] : List ℝ),
        getD_map_any (fun r : List ℝ => r.map f) _ j ([] : List ℝ)
          (by rw [transposeRect_length]; omega) ([] : List ℝ),
        transposeRect_getD _ _ _ (by omega : j < c),
        getD_map_real _ _ i (by simpa using hi),
        getD_map_any (fun row : List ℝ => row.getD j 0) m i (0:ℝ) hi
          ([] : List ℝ),
        getD_map_any (fun r : List ℝ => r.map f) m i ([] : List ℝ) hi
          ([] : List ℝ),
        getD_map_real _ _ j (by rw [hmemlen i hi]; omega)]

theorem cumFromZero_length (t : ℝ) (xs : List ℝ) :
    (cumFromZero t xs).length = xs.length + 1 := by
  induction xs generalizing t with
  | nil => rfl
  | cons x xs ih => simp [cumFromZero, ih]

theorem cumFromZero_getD (t : ℝ) (xs : List ℝ) (k : ℕ) (hk : k ≤ xs.length) :
    (cumFromZero t xs).getD k 0 = t + (xs.take k).sum := by
  induction xs generalizing t k with
  | nil =>
    have hk0 : k = 0 := by simpa using hk
    subst hk0
    simp [cumFromZero]
  | cons x xs ih =>
    cases k with
    | zero => simp [cumFromZero]
    | succ n =>
      have hn : n ≤ xs.length := by simpa using hk
      simp only [cumFromZero, List.getD_cons_succ, List.take_succ_cons,
        List.sum_cons, ih (t + x) n hn]
      ring

theorem sum_take_range (l : List ℝ) (k : ℕ) (hk : k ≤ l.length) :
    (l.take k).sum = ((List.range k).map (fun j => l.getD j 0)).sum := by
  induction k with
  | zero => simp
  | succ n ih =>
    have hn : n ≤ l.length := by omega
    have hnl : n < l.length := by omega
    rw [List.take_succ, List.sum_append, ih hn, List.range_succ,
        List.map_append]
    simp [List.getElem?_eq_getElem hnl, List.getD_eq_getElem _ _ hnl]

theorem load_ip_go_getD (energies : List ℝ) (t : List (List ℝ)) (s : ℤ)
    (i : ℕ) (hi : i < t.length) :
    (load_ip_go energies s t).getD i (0, ([], []))
      = (105 - 10 * (s + i), mkIpSpline energies (t.getD i [])) := by
  induction t generalizing s i with
  | nil => simp at hi
  | cons row rest ih =>
    cases i with
    | zero => simp [load_ip_go]
    | succ n =>
      have hn : n < rest.length := by simpa using hi
      simp only [load_ip_go, List.getD_cons_succ, ih (s + 1) n hn]
      congr 1
      push_cast
      ring

theorem load_ip_go_lookup (energies : List ℝ) (t : List (List ℝ)) (s m : ℤ)
    (h1 : s ≤ m) (h2 : m < s + t.length) :
    (load_ip_go energies s t).lookup (105 - 10 * m)
      = some (mkIpSpline energies (t.getD (m - s).toNat [])) := by
  induction t generalizing s with
  | nil => simp at h2; omega
  | cons row rest ih =>
    by_cases hm : m = s
    · subst hm
      simp [load_ip_go, List.lookup, Int.sub_self]
    · have hkey : ((105 - 10 * m : ℤ) == (105 - 10 * s : ℤ)) = false := by
        rw [beq_eq_false_iff_ne]
        intro hc
        omega
      have h1' : s + 1 ≤ m := by omega
      have h2' : m < (s + 1) + rest.length := by
        simp only [List.length_cons] at h2
        omega
      have hidx : (m - s).toNat = (m - (s + 1)).toNat + 1 := by omega
      simp only [load_ip_go, List.lookup, hkey, ih (s + 1) h1' h2', hidx,
        List.getD_cons_succ]

theorem load_2D_ip_lookup (fluxTable : List (List ℝ)) (energies : List ℝ)
    (hT : fluxTable.length = 20) (l : ℕ) (hl : l < 20) :
    (load_2D_ip_splines fluxTable energies).lookup (-95 + 10 * (l : ℤ))
      = some (mkIpSpline energies (fluxTable.getD (19 - l) [])) := by
  have h := load_ip_go_lookup energies fluxTable 1 (20 - (l : ℤ))
    (by omega) (by rw [hT]; push_cast; omega)
  have hidx : ((20 : ℤ) - l - 1).toNat = 19 - l := by omega
  rw [show (-95 + 10 * (l : ℤ)) = 105 - 10 * ((20 : ℤ) - l) by ring]
  rw [load_2D_ip_splines, h, hidx]

/- ------------------------------------------------------------------ -/
/- Theorems                                                            -/
/- ------------------------------------------------------------------ -/

/-- C1: for equal-length metric arrays with every `WO_to_TO` entry strictly
positive, `calculate_deltachi2_signifiances` has the same length as its
inputs and returns, element-wise, the Asimov significance
`(WO_to_TO + TO_to_WO) / (2 * sqrt WO_to_TO)`. -/
theorem calculate_deltachi2_signifiances_spec
    (WO_to_TO_metrics TO_to_WO_metrics : List ℝ)
    (hlen : WO_to_TO_metrics.length = TO_to_WO_metrics.length)
    (hpos : ∀ i < WO_to_TO_metrics.length, 0 < WO_to_TO_metrics.getD i 0) :
    (calculate_deltachi2_signifiances WO_to_TO_metrics TO_to_WO_metrics).length
        = WO_to_TO_metrics.length
    ∧ ∀ i < WO_to_TO_metrics.length,
        (calculate_deltachi2_signifiances WO_to_TO_metrics TO_to_WO_metrics).getD i 0
          = (WO_to_TO_metrics.getD i 0 + TO_to_WO_metrics.getD i 0)
            / (2 * Real.sqrt (WO_to_TO_metrics.getD i 0)) := by
  unfold calculate_deltachi2_signifiances
  constructor
  · simp [hlen]
  · intro i hi
    have hi' : i < TO_to_WO_metrics.length := hlen ▸ hi
    have h1 : i < (List.zipWith (fun a b => a + b) WO_to_TO_metrics
        TO_to_WO_metrics).length := by simp; omega
    have h2 : i < (WO_to_TO_metrics.map (fun w => 2 * Real.sqrt w)).length := by
      simpa using hi
    have hz : i < (List.zipWith (fun a b => a / b)
        (List.zipWith (fun a b => a + b) WO_to_TO_metrics TO_to_WO_metrics)
        (WO_to_TO_metrics.map (fun w => 2 * Real.sqrt w))).length := by
      simp; omega
    rw [List.getD_eq_getElem _ _ hz, List.getD_eq_getElem _ _ hi,
        List.getD_eq_getElem _ _ hi']
    simp [List.getElem_zipWith]

/-- Closed witness for C1 at concrete input. -/
theorem calculate_deltachi2_signifiances_spec_witness :
    (calculate_deltachi2_signifiances [1] [3]).getD 0 0
      = (([1] : List ℝ).getD 0 0 + ([3] : List ℝ).getD 0 0)
        / (2 * Real.sqrt (([1] : List ℝ).getD 0 0)) :=
  (calculate_deltachi2_signifiances_spec [1] [3] (by simp)
    (by intro i hi; simp only [List.length_singleton, Nat.lt_one_iff] at hi
        subst hi; norm_num)).2 0 (by norm_num)

/-- C7: for a readable file whose contents form a mapping, `extract_fit`
returns the mapping restricted to exactly the keys in `keys` (all of it
when `keys` is `None`, a single string acting as a one-element
collection), with the retained entries unchanged and in order; for an
unreadable file it raises a `RuntimeError`. -/
theorem extract_fit_spec {V : Type} (fileContents : Option (List (String × V)))
    (keys : FitKeys) :
    (∀ info, fileContents = some info →
      ∃ res, extract_fit fileContents keys = Except.ok res
        ∧ res.Sublist info
        ∧ ∀ kv, kv ∈ res ↔ kv ∈ info ∧ keyKept keys kv.1)
    ∧ (fileContents = Option.none →
        ∃ msg, extract_fit fileContents keys = Except.error msg) := by
  constructor
  · intro info hread
    subst hread
    cases keys with
    | noKeys =>
      refine ⟨info, rfl, List.Sublist.refl info, ?_⟩
      intro kv
      simp [keyKept]
    | oneKey s =>
      refine ⟨info.filter (fun kv => [s].contains kv.1), rfl,
        List.filter_sublist info, ?_⟩
      intro kv
      rw [List.mem_filter]
      simp [keyKept]
    | manyKeys ks =>
      refine ⟨info.filter (fun kv => ks.contains kv.1), rfl,
        List.filter_sublist info, ?_⟩
      intro kv
      rw [List.mem_filter]
      simp [keyKept]
  · intro hread
    subst hread
    exact ⟨_, rfl⟩

/-- Closed witness for C7 at a concrete two-entry mapping. -/
theorem extract_fit_spec_witness :
    ∃ res, extract_fit (some [("a", (1:ℕ)), ("b", 2)]) (FitKeys.oneKey "a")
        = Except.ok res
      ∧ res.Sublist [("a", (1:ℕ)), ("b", 2)]
      ∧ ∀ kv, kv ∈ res ↔ kv ∈ [("a", (1:ℕ)), ("b", 2)]
          ∧ keyKept (FitKeys.oneKey "a") kv.1 :=
  (extract_fit_spec (some [("a", (1:ℕ)), ("b", 2)]) (FitKeys.oneKey "a")).1
    [("a", (1:ℕ)), ("b", 2)] rfl

/-- For options known to hold values, equality of the contained values is
equality of the options. -/
theorem option_getD_inj {α : Type} {a b : Option α} (d : α)
    (ha : a.isSome) (hb : b.isSome) : a.getD d = b.getD d ↔ a = b := by
  cases a <;> cases b <;> simp_all

theorem mapOpt_eq_some {α β : Type} (f : α → Option β) (d : β) (l : List α)
    (h : ∀ a ∈ l, (f a).isSome) :
    mapOpt f l = some (l.map (fun a => (f a).getD d)) := by
  induction l with
  | nil => rfl
  | cons a as ih =>
    have ha : (f a).isSome := h a (List.mem_cons_self a as)
    obtain ⟨b, hb⟩ := Option.isSome_iff_exists.mp ha
    have ih' := ih (fun x hx => h x (List.mem_cons_of_mem a hx))
    simp [mapOpt, hb, ih']

/-- C6: under successful parsing of a nonempty collection of qualifying
folder names, the consistency check of `extract_trials` raises
`ValueError` exactly when the folder names do not all encode the same
injected truth model name and the same scanned-variable name, and
passes (`ok`) when they all agree. -/
theorem extract_trials_check_spec (logdirContent : List String)
    (hparse : ∀ f ∈ trialFolders logdirContent,
      (toyName f).isSome ∧ (scanVar f).isSome)
    (hne : trialFolders logdirContent ≠ []) :
    (extract_trials_check logdirContent = TrialsCheck.valueError
      ↔ ¬ (∀ f ∈ trialFolders logdirContent, ∀ g ∈ trialFolders logdirContent,
            toyName f = toyName g ∧ scanVar f = scanVar g))
    ∧ ((∀ f ∈ trialFolders logdirContent, ∀ g ∈ trialFolders logdirContent,
          toyName f = toyName g ∧ scanVar f = scanVar g)
        → extract_trials_check logdirContent = TrialsCheck.ok) := by
  cases hfl : trialFolders logdirContent with
  | nil => exact absurd hfl hne
  | cons f0 rest =>
    rw [hfl] at hparse
    unfold extract_trials_check
    rw [hfl]
    rw [mapOpt_eq_some toyName [] _ (fun a ha => (hparse a ha).1),
        mapOpt_eq_some scanVar [] _ (fun a ha => (hparse a ha).2)]
    simp only [List.map_cons]
    have hT : ((((toyName f0).getD []) ::
          rest.map (fun a => (toyName a).getD [])).all
            (fun t => t == (toyName f0).getD []) = true)
        ↔ ∀ f ∈ f0 :: rest, toyName f = toyName f0 := by
      rw [show (((toyName f0).getD []) ::
            rest.map (fun a => (toyName a).getD []))
          = (f0 :: rest).map (fun a => (toyName a).getD []) from rfl,
        List.all_eq_true]
      constructor
      · intro h f hf
        have hx := h _ (List.mem_map_of_mem _ hf)
        rw [beq_iff_eq] at hx
        exact (option_getD_inj [] (hparse f hf).1
          (hparse f0 (List.mem_cons_self f0 rest)).1).mp hx
      · intro h x hx
        obtain ⟨f, hf, rfl⟩ := List.mem_map.mp hx
        rw [beq_iff_eq, h f hf]
    have hS : ((((scanVar f0).getD []) ::
          rest.map (fun a => (scanVar a).getD [])).all
            (fun s => s == (scanVar f0).getD []) = true)
        ↔ ∀ f ∈ f0 :: rest, scanVar f = scanVar f0 := by
      rw [show (((scanVar f0).getD []) ::
            rest.map (fun a => (scanVar a).getD []))
          = (f0 :: rest).map (fun a => (scanVar a).getD []) from rfl,
        List.all_eq_true]
      constructor
      · intro h f hf
        have hx := h _ (List.mem_map_of_mem _ hf)
        rw [beq_iff_eq] at hx
        exact (option_getD_inj [] (hparse f hf).2
          (hparse f0 (List.mem_cons_self f0 rest)).2).mp hx
      · intro h x hx
        obtain ⟨f, hf, rfl⟩ := List.mem_map.mp hx
        rw [beq_iff_eq, h f hf]
    have hPair : (∀ f ∈ f0 :: rest, ∀ g ∈ f0 :: rest,
          toyName f = toyName g ∧ scanVar f = scanVar g)
        ↔ ((∀ f ∈ f0 :: rest, toyName f = toyName f0)
            ∧ (∀ f ∈ f0 :: rest, scanVar f = scanVar f0)) := by
      constructor
      · intro h
        exact ⟨fun f hf => (h f hf f0 (List.mem_cons_self f0 rest)).1,
               fun f hf => (h f hf f0 (List.mem_cons_self f0 rest)).2⟩
      · intro h f hf g hg
        exact ⟨(h.1 f hf).trans (h.1 g hg).symm,
               (h.2 f hf).trans (h.2 g hg).symm⟩
    by_cases h1 : ((((toyName f0).getD []) ::
        rest.map (fun a => (toyName a).getD [])).all
          (fun t => t == (toyName f0).getD []) = true)
    · by_cases h2 : ((((scanVar f0).getD []) ::
          rest.map (fun a => (scanVar a).getD [])).all
            (fun s => s == (scanVar f0).getD []) = true)
      · rw [if_pos h1, if_pos h2]
        constructor
        · constructor
          · intro h
            exact absurd h (by intro hx; exact TrialsCheck.noConfusion hx)
          · intro hn
            exact absurd (hPair.mpr ⟨hT.mp h1, hS.mp h2⟩) hn
        · intro _; rfl
      · rw [if_pos h1, if_neg h2]
        constructor
        · constructor
          · intro _ hp
            exact h2 (hS.mpr (hPair.mp hp).2)
          · intro _; rfl
        · intro hp
          exact absurd (hS.mpr (hPair.mp hp).2) h2
    · rw [if_neg h1]
      constructor
      · constructor
        · intro _ hp
          exact h1 (hT.mpr (hPair.mp hp).1)
        · intro _; rfl
      · intro hp
        exact absurd (hT.mpr (hPair.mp hp).1) h1

/-- Closed witness for C6: two agreeing folder names pass the check. -/
theorem extract_trials_check_spec_witness :
    extract_trials_check ["toy_no_deltam_a", "toy_no_deltam_b", "x.pckl"]
      = TrialsCheck.ok :=
  (extract_trials_check_spec ["toy_no_deltam_a", "toy_no_deltam_b", "x.pckl"]
    (by decide) (by decide)).2 (by decide)

/-- C9 counterexample: the stated pion-ratio identity fails at
`barr_var = -1`, `pion_ratio = 1`, where the left-hand side is `0/0`. -/
theorem antipion_production_counterexample :
    ¬ ((1 + (-1 : ℝ)) / (1 + antipion_production (-1) 1) = 1 + 1) := by
  norm_num [antipion_production]

/-- C9 (amended): for every `barr_var ≠ -1` and every `pion_ratio ≠ -1`,
`(1 + barr_var) / (1 + antipion_production barr_var pion_ratio)
  = 1 + pion_ratio`, i.e. `antipion_production` solves the pion-ratio
definition exactly; and `antipion_production barr_var 0 = barr_var` for
every `barr_var` (with no restriction). -/
theorem antipion_production_spec :
    (∀ barr_var pion_ratio : ℝ, barr_var ≠ -1 → pion_ratio ≠ -1 →
      (1 + barr_var) / (1 + antipion_production barr_var pion_ratio)
        = 1 + pion_ratio)
    ∧ ∀ barr_var : ℝ, antipion_production barr_var 0 = barr_var := by
  constructor
  · intro barr_var pion_ratio hb hp
    have hb' : 1 + barr_var ≠ 0 := by intro h; apply hb; linarith
    have hp' : 1 + pion_ratio ≠ 0 := by intro h; apply hp; linarith
    unfold antipion_production
    rw [show (1 : ℝ) + ((1 + barr_var) / (1 + pion_ratio) - 1)
        = (1 + barr_var) / (1 + pion_ratio) by ring]
    field_simp
  · intro barr_var
    unfold antipion_production
    norm_num

/-- Closed witness for C9's amended theorem: the ratio identity at a
concrete admissible input, and the `pion_ratio = 0` identity at the
boundary value `barr_var = -1` itself. -/
theorem antipion_production_spec_witness :
    (1 + (1 : ℝ)) / (1 + antipion_production 1 1) = 1 + 1
    ∧ antipion_production (-1) 0 = -1 :=
  ⟨antipion_production_spec.1 1 1 (by norm_num) (by norm_num),
   antipion_production_spec.2 (-1)⟩

/-- C2: for every event, `apply_sys_kernel` sets the output flavour entry
`b` to `max 0 (nu_flux_nominal[b] * (true_energy / energy_pivot) ^
delta_index + dot gradients[b] gradient_params)`, and every output entry
is non-negative. -/
theorem apply_sys_kernel_spec (true_energy true_coszen delta_index energy_pivot : ℝ)
    (nu_flux_nominal : List ℝ) (gradients : List (List ℝ))
    (gradient_params : List ℝ)
    (hlen : gradients.length = nu_flux_nominal.length) :
    (∀ b < nu_flux_nominal.length,
      (apply_sys_kernel true_energy true_coszen delta_index energy_pivot
          nu_flux_nominal gradients gradient_params).getD b 0
        = max 0 (nu_flux_nominal.getD b 0
            * (true_energy / energy_pivot) ^ delta_index
            + dot (gradients.getD b []) gradient_params))
    ∧ ∀ b, 0 ≤ (apply_sys_kernel true_energy true_coszen delta_index
        energy_pivot nu_flux_nominal gradients gradient_params).getD b 0 := by
  unfold apply_sys_kernel spectral_index_scale
  have hmax : ∀ x : ℝ, (if x < 0 then (0:ℝ) else x) = max 0 x := by
    intro x
    rcases lt_or_le x 0 with h | h
    · rw [if_pos h, max_eq_left h.le]
    · rw [if_neg (not_lt.mpr h), max_eq_right h]
  constructor
  · intro b hb
    have hb2 : b < gradients.length := hlen ▸ hb
    have hz : b < (List.zipWith (fun r g => r + g)
        (nu_flux_nominal.map
          (fun nom => nom * (true_energy / energy_pivot) ^ delta_index))
        (gradients.map (fun grow => dot grow gradient_params))).length := by
      simp; omega
    have hfin : b < ((List.zipWith (fun r g => r + g)
        (nu_flux_nominal.map
          (fun nom => nom * (true_energy / energy_pivot) ^ delta_index))
        (gradients.map (fun grow => dot grow gradient_params))).map
          (fun x => if x < 0 then (0:ℝ) else x)).length := by
      simpa using hz
    rw [List.getD_eq_getElem _ _ hfin, List.getD_eq_getElem _ _ hb,
        List.getD_eq_getElem _ _ hb2]
    rw [List.getElem_map, List.getElem_zipWith, List.getElem_map,
        List.getElem_map, hmax]
  · intro b
    by_cases hb : b < ((List.zipWith (fun r g => r + g)
        (nu_flux_nominal.map
          (fun nom => nom * (true_energy / energy_pivot) ^ delta_index))
        (gradients.map (fun grow => dot grow gradient_params))).map
          (fun x => if x < 0 then (0:ℝ) else x)).length
    · rw [List.getD_eq_getElem _ _ hb, List.getElem_map]
      split
      · exact le_refl 0
      · next h => exact not_lt.mp h
    · rw [List.getD_eq_default _ _ (not_lt.mp hb)]

/-- Closed witness for C2 at a concrete event. -/
theorem apply_sys_kernel_spec_witness :
    (apply_sys_kernel 2 0 3 2 [1] [[2]] [1]).getD 0 0
      = max 0 ((1:ℝ) * ((2:ℝ) / 2) ^ (3:ℝ) + dot [2] [1]) :=
  (apply_sys_kernel_spec 2 0 3 2 [1] [[2]] [1] (by simp)).1 0 (by norm_num)

/-- C8: per-bin helper — the algebra of `apply_ratio_scale` on a single
pair of positive bin values. -/
theorem ratio_scale_bin (a b ratio_scale : ℝ) (ha : 0 < a) (hb : 0 < b)
    (hR : 0 < ratio_scale) :
    ratio_scale * (a / b) * ((a + b) / (1 + ratio_scale * (a / b)))
        + (a + b) / (1 + ratio_scale * (a / b)) = a + b
    ∧ (ratio_scale * (a / b) * ((a + b) / (1 + ratio_scale * (a / b))))
        / ((a + b) / (1 + ratio_scale * (a / b))) = ratio_scale * (a / b) := by
  have hden : (0:ℝ) < 1 + ratio_scale * (a / b) := by positivity
  have hs2 : (0:ℝ) < (a + b) / (1 + ratio_scale * (a / b)) := by positivity
  constructor
  · field_simp
    ring
  · rw [mul_div_assoc, div_self hs2.ne', mul_one]

/-- Row-level form of `apply_ratio_scale`: the `i`-th rows of the two
returned maps. -/
theorem apply_ratio_scale_rows (map1 map2 : List (List ℝ)) (R : ℝ) (i : ℕ)
    (h1 : i < map1.length) (h2 : i < map2.length) :
    (apply_ratio_scale map1 map2 R).2.getD i []
      = List.zipWith (fun x y => x / y)
          (List.zipWith (fun x y => x + y) (map1.getD i []) (map2.getD i []))
          ((List.zipWith (fun x y => x / y) (map1.getD i [])
              (map2.getD i [])).map (fun r => 1 + R * r))
    ∧ (apply_ratio_scale map1 map2 R).1.getD i []
      = List.zipWith (fun x y => x * y)
          ((List.zipWith (fun x y => x / y) (map1.getD i [])
              (map2.getD i [])).map (fun r => R * r))
          ((apply_ratio_scale map1 map2 R).2.getD i []) := by
  have hsum : i < (map2D (fun a b => a + b) map1 map2).length := by
    simp [map2D]; omega
  have hratio : i < (map2D (fun a b => a / b) map1 map2).length := by
    simp [map2D]; omega
  have hmapped : i < ((map2D (fun a b => a / b) map1 map2).map
      (fun row => row.map (fun r => 1 + R * r))).length := by
    simpa using hratio
  have hmapped' : i < ((map2D (fun a b => a / b) map1 map2).map
      (fun row => row.map (fun r => R * r))).length := by
    simpa using hratio
  have hs2 : i < (map2D (fun a b => a / b)
      (map2D (fun a b => a + b) map1 map2)
      ((map2D (fun a b => a / b) map1 map2).map
        (fun row => row.map (fun r => 1 + R * r)))).length := by
    simp [map2D]; omega
  constructor
  · show (map2D (fun a b => a / b)
        (map2D (fun a b => a + b) map1 map2)
        ((map2D (fun a b => a / b) map1 map2).map
          (fun row => row.map (fun r => 1 + R * r)))).getD i [] = _
    rw [getD_row_map2D _ _ _ _ hsum hmapped,
        getD_row_map2D _ _ _ _ h1 h2,
        getD_row_mapMap _ _ _ hratio,
        getD_row_map2D _ _ _ _ h1 h2]
  · show (map2D (fun a b => a * b)
        ((map2D (fun a b => a / b) map1 map2).map
          (fun row => row.map (fun r => R * r))) _).getD i [] = _
    rw [getD_row_map2D _ _ _ _ hmapped' hs2,
        getD_row_mapMap _ _ _ hratio,
        getD_row_map2D _ _ _ _ h1 h2]
    rfl

/-- C8: for maps of equal shape with strictly positive bins and
`ratio_scale > 0`, `apply_ratio_scale` preserves the bin-wise sum, scales
the bin-wise ratio by `ratio_scale`, and returns both maps unchanged when
`ratio_scale = 1`. -/
theorem apply_ratio_scale_spec (map1 map2 : List (List ℝ)) (ratio_scale : ℝ)
    (hlen : map1.length = map2.length)
    (hrows : ∀ i < map1.length, (map2.getD i []).length = (map1.getD i []).length)
    (hpos1 : ∀ i j, i < map1.length → j < (map1.getD i []).length → 0 < ent map1 i j)
    (hpos2 : ∀ i j, i < map1.length → j < (map1.getD i []).length → 0 < ent map2 i j)
    (hR : 0 < ratio_scale) :
    (∀ i j, i < map1.length → j < (map1.getD i []).length →
      ent (apply_ratio_scale map1 map2 ratio_scale).1 i j
          + ent (apply_ratio_scale map1 map2 ratio_scale).2 i j
        = ent map1 i j + ent map2 i j
      ∧ ent (apply_ratio_scale map1 map2 ratio_scale).1 i j
          / ent (apply_ratio_scale map1 map2 ratio_scale).2 i j
        = ratio_scale * (ent map1 i j / ent map2 i j))
    ∧ (ratio_scale = 1 → apply_ratio_scale map1 map2 ratio_scale = (map1, map2)) := by
  have key : ∀ i j, i < map1.length → j < (map1.getD i []).length →
      ent (apply_ratio_scale map1 map2 ratio_scale).2 i j
        = (ent map1 i j + ent map2 i j)
          / (1 + ratio_scale * (ent map1 i j / ent map2 i j))
      ∧ ent (apply_ratio_scale map1 map2 ratio_scale).1 i j
        = ratio_scale * (ent map1 i j / ent map2 i j)
          * ((ent map1 i j + ent map2 i j)
            / (1 + ratio_scale * (ent map1 i j / ent map2 i j))) := by
    intro i j hi hj
    have hi2 : i < map2.length := hlen ▸ hi
    have hj2 : j < (map2.getD i []).length := by rw [hrows i hi]; exact hj
    obtain ⟨hrow2, hrow1⟩ := apply_ratio_scale_rows map1 map2 ratio_scale i hi hi2
    have hjsum : j < (List.zipWith (fun x y => x + y) (map1.getD i [])
        (map2.getD i [])).length := by
      rw [List.length_zipWith]; omega
    have hjratio : j < (List.zipWith (fun x y => x / y) (map1.getD i [])
        (map2.getD i [])).length := by
      rw [List.length_zipWith]; omega
    have hjmapped : j < ((List.zipWith (fun x y => x / y) (map1.getD i [])
        (map2.getD i [])).map (fun r => 1 + ratio_scale * r)).length := by
      simpa using hjratio
    have hjmapped' : j < ((List.zipWith (fun x y => x / y) (map1.getD i [])
        (map2.getD i [])).map (fun r => ratio_scale * r)).length := by
      simpa using hjratio
    have h2val : ent (apply_ratio_scale map1 map2 ratio_scale).2 i j
        = (ent map1 i j + ent map2 i j)
          / (1 + ratio_scale * (ent map1 i j / ent map2 i j)) := by
      unfold ent
      rw [hrow2, getD_zipWith_real _ _ _ _ hjsum hjmapped,
          getD_zipWith_real _ _ _ _ hj hj2,
          getD_map_real _ _ _ hjratio,
          getD_zipWith_real _ _ _ _ hj hj2]
    refine ⟨h2val, ?_⟩
    have hjs2 : j < ((apply_ratio_scale map1 map2 ratio_scale).2.getD i []).length := by
      rw [hrow2]
      simp only [List.length_zipWith, List.length_map]
      omega
    unfold ent
    rw [hrow1, getD_zipWith_real _ _ _ _ hjmapped' hjs2,
        getD_map_real _ _ _ hjratio,
        getD_zipWith_real _ _ _ _ hj hj2]
    unfold ent at h2val
    rw [h2val]
  constructor
  · intro i j hi hj
    obtain ⟨h2val, h1val⟩ := key i j hi hj
    have ha := hpos1 i j hi hj
    have hb := hpos2 i j hi hj
    obtain ⟨hsum, hdiv⟩ := ratio_scale_bin (ent map1 i j) (ent map2 i j)
      ratio_scale ha hb hR
    rw [h1val, h2val]
    exact ⟨hsum, hdiv⟩
  · intro h1
    subst h1
    have hlen2 : (apply_ratio_scale map1 map2 1).2.length = map2.length := by
      show (map2D _ (map2D _ map1 map2) _).length = map2.length
      simp only [map2D, List.length_zipWith, List.length_map]
      omega
    have hlen1 : (apply_ratio_scale map1 map2 1).1.length = map1.length := by
      show (map2D _ _ (map2D _ (map2D _ map1 map2) _)).length = map1.length
      simp only [map2D, List.length_zipWith, List.length_map]
      omega
    have hrowlen : ∀ i, i < map1.length →
        ((apply_ratio_scale map1 map2 1).2.getD i []).length
            = (map2.getD i []).length
        ∧ ((apply_ratio_scale map1 map2 1).1.getD i []).length
            = (map1.getD i []).length := by
      intro i hi
      obtain ⟨hrow2, hrow1⟩ := apply_ratio_scale_rows map1 map2 1 i hi (hlen ▸ hi)
      have h2 := hrows i hi
      constructor
      · rw [hrow2]
        simp only [List.length_zipWith, List.length_map]
        omega
      · rw [hrow1, hrow2]
        simp only [List.length_zipWith, List.length_map]
        omega
    have hent : ∀ i j, i < map1.length → j < (map1.getD i []).length →
        ent (apply_ratio_scale map1 map2 1).2 i j = ent map2 i j
        ∧ ent (apply_ratio_scale map1 map2 1).1 i j = ent map1 i j := by
      intro i j hi hj
      obtain ⟨h2val, h1val⟩ := key i j hi hj
      have ha := hpos1 i j hi hj
      have hb := hpos2 i j hi hj
      have ha' : ent map1 i j ≠ 0 := ha.ne'
      have hb' : ent map2 i j ≠ 0 := hb.ne'
      have hden : (1:ℝ) + 1 * (ent map1 i j / ent map2 i j) ≠ 0 := by positivity
      have h2eq : ent (apply_ratio_scale map1 map2 1).2 i j = ent map2 i j := by
        rw [h2val, div_eq_iff hden]
        field_simp
        ring
      refine ⟨h2eq, ?_⟩
      have hbval : (ent map1 i j + ent map2 i j)
          / (1 + 1 * (ent map1 i j / ent map2 i j)) = ent map2 i j := by
        rw [← h2val, h2eq]
      rw [h1val, hbval, one_mul, div_mul_cancel₀ _ hb']
    have e2 : (apply_ratio_scale map1 map2 1).2 = map2 := by
      apply list2_ext_getD _ _ hlen2
      · intro i hi
        exact (hrowlen i (by omega)).1
      · intro i j hi hj
        have hi1 : i < map1.length := by omega
        have hj1 : j < (map1.getD i []).length := by
          have := (hrowlen i hi1).1
          have h2 := hrows i hi1
          omega
        exact (hent i j hi1 hj1).1
    have e1 : (apply_ratio_scale map1 map2 1).1 = map1 := by
      apply list2_ext_getD _ _ hlen1
      · intro i hi
        exact (hrowlen i (by omega)).2
      · intro i j hi hj
        have hi1 : i < map1.length := by omega
        have hj1 : j < (map1.getD i []).length := by
          have := (hrowlen i hi1).2
          omega
        exact (hent i j hi1 hj1).2
    exact Prod.ext e1 e2

theorem sum_map_mul_const (l : List ℝ) (c : ℝ) :
    (l.map (fun x => x * c)).sum = l.sum * c := by
  induction l with
  | nil => simp
  | cons x xs ih =>
    simp only [List.map_cons, List.sum_cons, ih]
    ring

theorem sum2_mapMul (m : List (List ℝ)) (c : ℝ) :
    sum2 (m.map (fun row => row.map (fun x => x * c))) = sum2 m * c := by
  unfold sum2
  rw [List.map_map]
  have h1 : (List.sum ∘ fun row : List ℝ => row.map (fun x => x * c))
      = fun row : List ℝ => row.sum * c := by
    funext row
    exact sum_map_mul_const row c
  rw [h1, show (fun row : List ℝ => row.sum * c)
      = (fun s => s * c) ∘ List.sum from rfl, ← List.map_map]
  exact sum_map_mul_const _ c

/-- C10: `apply_delta_index` passes the nue and nuebar maps through
unchanged, preserves the total bin sum of the numu and numubar maps
(given nonzero scaled sums), and `_compute_outputs` does not invoke
`apply_delta_index` at all when `atm_delta_index` is `0.0`. -/
theorem apply_delta_index_spec (maps : FluxMaps) (evals : List ℝ)
    (atm_delta_index nue_numu_ratio nu_nubar_ratio : ℝ)
    (hnumu : sum2 (maps.numu.map (fun row => List.zipWith (fun a b => a * b)
      row (delta_index_scale evals atm_delta_index))) ≠ 0)
    (hnumubar : sum2 (maps.numubar.map (fun row => List.zipWith (fun a b => a * b)
      row (delta_index_scale evals atm_delta_index))) ≠ 0) :
    (apply_delta_index maps evals atm_delta_index).nue = maps.nue
    ∧ (apply_delta_index maps evals atm_delta_index).nuebar = maps.nuebar
    ∧ sum2 (apply_delta_index maps evals atm_delta_index).numu = sum2 maps.numu
    ∧ sum2 (apply_delta_index maps evals atm_delta_index).numubar
        = sum2 maps.numubar
    ∧ compute_outputs_sys maps nue_numu_ratio nu_nubar_ratio 0 evals
      = (if nue_numu_ratio ≠ 1 ∨ nu_nubar_ratio ≠ 1 then
          (let m := maps
           let m := if nue_numu_ratio ≠ 1 then
             apply_nue_numu_ratio m nue_numu_ratio else m
           if nu_nubar_ratio ≠ 1 then apply_nu_nubar_ratio m nu_nubar_ratio else m)
         else maps) := by
  have key : ∀ fm : List (List ℝ),
      sum2 (fm.map (fun row => List.zipWith (fun a b => a * b)
        row (delta_index_scale evals atm_delta_index))) ≠ 0 →
      sum2 (apply_delta_index_map fm (delta_index_scale evals atm_delta_index))
        = sum2 fm := by
    intro fm hs
    unfold apply_delta_index_map
    rw [sum2_mapMul, mul_comm, div_mul_cancel₀ _ hs]
  refine ⟨rfl, rfl, key maps.numu hnumu, key maps.numubar hnumubar, ?_⟩
  have h0 : ¬ ((0:ℝ) ≠ 0) := by norm_num
  unfold compute_outputs_sys
  simp only [h0, or_false, if_neg h0, if_false]

/-- C4: the integral-preserving 2D algorithm.  At load time every table
cosZenith row is stored (under the `1.05 - CZiter*0.1` key) as a
zero-smoothing spline over the 102 log10-energy knots
`linspace(-1.025, 4.025, 102)` whose `k`-th value is the sum of
`flux[j]*energy[j]` for `j < k`.  At evaluation time, for each requested
energy bin center the 20 stored splines' first derivatives at
`log10(energy)` times the log-energy bin width 0.05 are accumulated
cumulatively starting at 0, splined over the 21 cosZenith knots
`linspace(-1, 1, 21)` with zero smoothing, and the result is that
spline's first derivative at the requested cosZenith value times
`0.1/energy`, times the bin volume, times `2*pi`. -/
theorem honda_integral_preserving_2D_spec
    (splevDer : Spline → ℝ → ℝ)
    (fluxTable : List (List ℝ)) (energies evals czvals : List ℝ)
    (binVolumes : List (List ℝ))
    (hT : fluxTable.length = 20)
    (hrow : ∀ r ∈ fluxTable, r.length = 101)
    (hE : energies.length = 101)
    (hbv : binVolumes.length = czvals.length)
    (hbv2 : ∀ r ∈ binVolumes, r.length = evals.length) :
    (∀ i < 20,
      (load_2D_ip_splines fluxTable energies).getD i (0, ([], []))
        = (105 - 10 * ((i : ℤ) + 1),
           (linspace (-1.025) 4.025 102,
            cumFromZero 0 (List.zipWith (fun f e => f * e)
              (fluxTable.getD i []) energies))))
    ∧ (∀ i < 20, ∀ k ≤ 101,
        ((mkIpSpline energies (fluxTable.getD i [])).2).getD k 0
          = ((List.range k).map (fun j =>
              (fluxTable.getD i []).getD j 0 * energies.getD j 0)).sum)
    ∧ (∀ i j, i < czvals.length → j < evals.length →
        ent (compute_2D_outputs_ip splevDer
            (load_2D_ip_splines fluxTable energies) evals czvals binVolumes) i j
          = splevDer
              (linspace (-1) 1 21,
               cumFromZero 0 ((List.range 20).map (fun l =>
                 splevDer (mkIpSpline energies (fluxTable.getD (19 - l) []))
                   (Real.logb 10 (evals.getD j 0)) * 0.05)))
              (czvals.getD i 0)
            * 0.1 / evals.getD j 0
            * ent binVolumes i j * (2 * Real.pi)) := by
  refine ⟨?_, ?_, ?_⟩
  · intro i hi
    rw [load_2D_ip_splines, load_ip_go_getD energies fluxTable 1 i (by omega)]
    exact Prod.ext (by push_cast; ring) rfl
  · intro i hi k hk
    have hmem : fluxTable.getD i [] ∈ fluxTable := by
      rw [List.getD_eq_getElem _ _ (by omega : i < fluxTable.length)]
      exact List.getElem_mem _
    have hrowi : (fluxTable.getD i []).length = 101 := hrow _ hmem
    have hzlen : (List.zipWith (fun f e => f * e) (fluxTable.getD i [])
        energies).length = 101 := by
      rw [List.length_zipWith]
      omega
    show (cumFromZero 0 (List.zipWith (fun f e => f * e)
        (fluxTable.getD i []) energies)).getD k 0 = _
    rw [cumFromZero_getD _ _ k (by omega), zero_add,
        sum_take_range _ _ (by omega)]
    congr 1
    apply List.map_congr_left
    intro j hjm
    rw [List.mem_range] at hjm
    exact getD_zipWith_real _ _ _ _ (by omega) (by omega)
  · intro i j hi hj
    have hvals : czEvalKeys.map (fun czkey =>
        splevDer (((load_2D_ip_splines fluxTable energies).lookup czkey).getD
          ([], [])) (Real.logb 10 (evals.getD j 0)) * 0.05)
      = (List.range 20).map (fun l =>
          splevDer (mkIpSpline energies (fluxTable.getD (19 - l) []))
            (Real.logb 10 (evals.getD j 0)) * 0.05) := by
      unfold czEvalKeys
      rw [List.map_map]
      apply List.map_congr_left
      intro l hl
      rw [List.mem_range] at hl
      show splevDer (((load_2D_ip_splines fluxTable energies).lookup
          (-95 + 10 * (l : ℤ))).getD ([], []))
          (Real.logb 10 (evals.getD j 0)) * 0.05 = _
      rw [load_2D_ip_lookup fluxTable energies hT l hl, Option.getD_some]
    have hbvmem : binVolumes.getD i [] ∈ binVolumes := by
      rw [List.getD_eq_getElem _ _ (by omega : i < binVolumes.length)]
      exact List.getElem_mem _
    have hbvrow : (binVolumes.getD i []).length = evals.length := hbv2 _ hbvmem
    have hrt1len : (evals.map (fun e => compute_2D_ip_row splevDer
        (load_2D_ip_splines fluxTable energies) e czvals)).length
        = evals.length := by simp
    have hrt2len : (transposeRect (evals.map (fun e => compute_2D_ip_row
        splevDer (load_2D_ip_splines fluxTable energies) e czvals))
        czvals.length).length = czvals.length := transposeRect_length _ _
    have hrt2row : (transposeRect (evals.map (fun e => compute_2D_ip_row
        splevDer (load_2D_ip_splines fluxTable energies) e czvals))
        czvals.length).getD i []
        = (evals.map (fun e => compute_2D_ip_row splevDer
            (load_2D_ip_splines fluxTable energies) e czvals)).map
              (fun row => row.getD i 0) := transposeRect_getD _ _ _ hi
    have hrt2rowlen : ((transposeRect (evals.map (fun e => compute_2D_ip_row
        splevDer (load_2D_ip_splines fluxTable energies) e czvals))
        czvals.length).getD i []).length = evals.length := by
      rw [hrt2row]
      simp
    unfold compute_2D_outputs_ip
    unfold ent
    have hi3 : i < (map2D (fun a b => a * b)
        (transposeRect (evals.map (fun e => compute_2D_ip_row splevDer
          (load_2D_ip_splines fluxTable energies) e czvals)) czvals.length)
        binVolumes).length := by
      simp only [map2D, List.length_zipWith]
      omega
    rw [getD_map_any _ _ i [] hi3 [],
        getD_row_map2D _ _ _ _ (by omega) (by omega),
        getD_map_real _ _ j (by rw [List.length_zipWith]; omega),
        getD_zipWith_real _ _ _ _ (by omega) (by omega),
        hrt2row,
        getD_map_any _ _ j (0:ℝ) (by omega) ([]:List ℝ),
        getD_map_any _ _ j ([]:List ℝ) (by omega) (0:ℝ)]
    simp only [compute_2D_ip_row]
    rw [getD_map_real _ _ i (by omega), hvals]

/-- Closed witness for C4 at a concrete flux table of ones. -/
theorem honda_integral_preserving_2D_spec_witness :
    ent (compute_2D_outputs_ip (fun _ _ => 0)
        (load_2D_ip_splines (List.replicate 20 (List.replicate 101 1))
          (List.replicate 101 1)) [1] [0] [[1]]) 0 0
      = (fun _ _ => (0:ℝ))
          (linspace (-1) 1 21,
           cumFromZero 0 ((List.range 20).map (fun l =>
             (fun _ _ => (0:ℝ)) (mkIpSpline (List.replicate 101 1)
               ((List.replicate 20 (List.replicate 101 (1:ℝ))).getD (19 - l) []))
               (Real.logb 10 (([1] : List ℝ).getD 0 0)) * 0.05)))
          (([0] : List ℝ).getD 0 0)
        * 0.1 / ([1] : List ℝ).getD 0 0
        * ent [[1]] 0 0 * (2 * Real.pi) :=
  (honda_integral_preserving_2D_spec (fun _ _ => 0)
    (List.replicate 20 (List.replicate 101 1)) (List.replicate 101 1) [1] [0]
    [[1]] (by simp)
    (by intro r hr; rw [List.eq_of_mem_replicate hr]; simp)
    (by simp) (by simp)
    (by intro r hr
        simp only [List.mem_singleton] at hr
        subst hr; simp)).2.2 0 0 (by norm_num) (by norm_num)

/-- C5: the bisplrep 2D pipeline.  The stored spline is the `bisplrep`
fit of `log10(flux)` over the meshgrid of log10 energies against the
table cosZenith values with smoothing 0.05, and `compute_2D_outputs`
returns 10 raised to the `bisplev` evaluation at the log10 energy bin
centers and the cosZenith bin centers, transposed, times the bin volumes,
times `2*pi`. -/
theorem honda_bisplrep_2D_spec {BSpline : Type}
    (bisplrepF : List (List ℝ) → List (List ℝ) → List (List ℝ) → ℝ → BSpline)
    (bisplevF : List ℝ → List ℝ → BSpline → List (List ℝ))
    (spline : BSpline)
    (fluxTable : List (List ℝ)) (energies evals czvals : List ℝ)
    (binVolumes : List (List ℝ))
    (hrowE : ∀ r ∈ fluxTable, r.length = energies.length)
    (hB1 : (bisplevF (evals.map (Real.logb 10)) czvals spline).length
      = evals.length)
    (hB2 : ∀ r ∈ bisplevF (evals.map (Real.logb 10)) czvals spline,
      r.length = czvals.length)
    (hbv : binVolumes.length = czvals.length)
    (hbv2 : ∀ r ∈ binVolumes, r.length = evals.length) :
    load_2D_bisplrep bisplrepF fluxTable energies 0.05
      = bisplrepF (meshgridX (energies.map (Real.logb 10)) honda_coszen_vals)
          (meshgridY (energies.map (Real.logb 10)) honda_coszen_vals)
          (fluxTable.map (fun r => r.map (Real.logb 10))) 0.05
    ∧ (∀ i j, i < czvals.length → j < evals.length →
        ent (compute_2D_outputs_bisplrep bisplevF spline evals czvals
            binVolumes) i j
          = (10:ℝ) ^ (((bisplevF (evals.map (Real.logb 10)) czvals
                spline).getD j []).getD i 0)
            * ent binVolumes i j * (2 * Real.pi)) := by
  constructor
  · simp only [load_2D_bisplrep]
    rw [transposeRect_map_transposeRect _ _ _ hrowE]
  · intro i j hi hj
    have hBj : (bisplevF (evals.map (Real.logb 10)) czvals spline).getD j []
        ∈ bisplevF (evals.map (Real.logb 10)) czvals spline := by
      rw [List.getD_eq_getElem _ _ (by omega :
        j < (bisplevF (evals.map (Real.logb 10)) czvals spline).length)]
      exact List.getElem_mem _
    have hBjlen : ((bisplevF (evals.map (Real.logb 10)) czvals
        spline).getD j []).length = czvals.length := hB2 _ hBj
    have hbvmem : binVolumes.getD i [] ∈ binVolumes := by
      rw [List.getD_eq_getElem _ _ (by omega : i < binVolumes.length)]
      exact List.getElem_mem _
    have hbvrow : (binVolumes.getD i []).length = evals.length := hbv2 _ hbvmem
    have hMlen : ((bisplevF (evals.map (Real.logb 10)) czvals spline).map
        (fun r => r.map (fun v => (10:ℝ) ^ v))).length = evals.length := by
      simpa using hB1
    have hrt2row : (transposeRect ((bisplevF (evals.map (Real.logb 10))
        czvals spline).map (fun r => r.map (fun v => (10:ℝ) ^ v)))
        czvals.length).getD i []
        = ((bisplevF (evals.map (Real.logb 10)) czvals spline).map
            (fun r => r.map (fun v => (10:ℝ) ^ v))).map
              (fun row => row.getD i 0) := transposeRect_getD _ _ _ hi
    have hrt2rowlen : ((transposeRect ((bisplevF (evals.map (Real.logb 10))
        czvals spline).map (fun r => r.map (fun v => (10:ℝ) ^ v)))
        czvals.length).getD i []).length = evals.length := by
      rw [hrt2row]
      simpa using hB1
    unfold compute_2D_outputs_bisplrep
    unfold ent
    have hi3 : i < (map2D (fun a b => a * b)
        (transposeRect ((bisplevF (evals.map (Real.logb 10)) czvals
          spline).map (fun r => r.map (fun v => (10:ℝ) ^ v))) czvals.length)
        binVolumes).length := by
      simp only [map2D, List.length_zipWith, transposeRect_length]
      omega
    rw [getD_map_any _ _ i [] hi3 [],
        getD_row_map2D _ _ _ _ (by rw [transposeRect_length]; omega)
          (by omega),
        getD_map_real _ _ j (by rw [List.length_zipWith]; omega),
        getD_zipWith_real _ _ _ _ (by omega) (by omega),
        hrt2row,
        getD_map_any _ _ j (0:ℝ) (by omega) ([]:List ℝ),
        getD_map_any _ _ j ([]:List ℝ) (by omega) ([]:List ℝ),
        getD_map_real _ _ i (by omega)]

/-- C3 counterexample: with the 3D binning the honda stage's output is
not obtained by evaluating the spline representations built from the flux
table — `compute_3D_outputs` is a placeholder.  At a concrete one-bin 3D
binning, a bivariate-spline evaluation returning 0 and unit bin volume,
the spline-based value is 1 while the computed output value is 27. -/
theorem compute_3D_outputs_not_spline_based :
    (((compute_3D_outputs (1, 1, 1)).getD 0 []).getD 0 []).getD 0 0
      ≠ spec_3D_spline_value (fun _ _ (_ : Unit) => [[0]]) () 0 0 1 := by
  norm_num [compute_3D_outputs, spec_3D_spline_value, List.replicate,
    Real.rpow_zero]

/-- C3 (amended): the honda stage dispatches every primary's 2D
true_energy/true_coszen binning to the spline-evaluating
`compute_2D_outputs` (bisplrep or integral-preserving according to
`flux_mode`); for the 3D true_energy/true_coszen/true_azimuth binning it
calls `compute_3D_outputs`, whose every bin value is the placeholder
27.0, independent of the flux table and splines. -/
theorem honda_compute_output_spec {BSpline : Type} (mode : FluxMode)
    (splevDer : Spline → ℝ → ℝ)
    (bisplevF : List ℝ → List ℝ → BSpline → List (List ℝ))
    (sd : SplineDict BSpline) (evals czvals : List ℝ)
    (binVolumes : List (List ℝ)) (shape3 : ℕ × ℕ × ℕ) :
    honda_compute_output mode splevDer bisplevF sd
        ["true_energy", "true_coszen", "true_azimuth"] evals czvals
        binVolumes shape3
      = Except.ok (FluxHist.threeD (compute_3D_outputs shape3))
    ∧ (∀ a b c, a < shape3.1 → b < shape3.2.1 → c < shape3.2.2 →
        (((compute_3D_outputs shape3).getD a []).getD b []).getD c 0 = 27)
    ∧ (∀ s : BSpline, honda_compute_output FluxMode.bisplrep splevDer
          bisplevF (SplineDict.bspl s) ["true_energy", "true_coszen"] evals
          czvals binVolumes shape3
        = Except.ok (FluxHist.twoD (compute_2D_outputs_bisplrep bisplevF s
            evals czvals binVolumes)))
    ∧ (∀ s : List (ℤ × Spline), honda_compute_output
          FluxMode.integralPreserving splevDer bisplevF (SplineDict.ip s)
          ["true_energy", "true_coszen"] evals czvals binVolumes shape3
        = Except.ok (FluxHist.twoD (compute_2D_outputs_ip splevDer s evals
            czvals binVolumes))) := by
  refine ⟨rfl, ?_, fun s => rfl, fun s => rfl⟩
  intro a b c ha hb hc
  unfold compute_3D_outputs
  rw [getD_replicate _ _ _ _ ha, getD_replicate _ _ _ _ hb,
      getD_replicate _ _ _ _ hc]
  norm_num

/-- Closed witness for C3's amended theorem at a one-bin 3D binning. -/
theorem honda_compute_output_spec_witness :
    (((compute_3D_outputs (1, 1, 1)).getD 0 []).getD 0 []).getD 0 0 = 27 :=
  (honda_compute_output_spec FluxMode.bisplrep (fun _ _ => 0)
    (fun _ _ (_ : Unit) => [[0]]) (SplineDict.bspl ()) [] [] []
    (1, 1, 1)).2.1 0 0 0 (by norm_num) (by norm_num) (by norm_num)

/-- Closed witness for C5 at a concrete one-point spline evaluation. -/
theorem honda_bisplrep_2D_spec_witness :
    ent (compute_2D_outputs_bisplrep (fun _ _ _ => [[0]]) () [1] [1] [[1]])
        0 0
      = (10:ℝ) ^ ((([[(0:ℝ)]] : List (List ℝ)).getD 0 []).getD 0 0)
        * ent [[1]] 0 0 * (2 * Real.pi) :=
  (honda_bisplrep_2D_spec (fun _ _ _ _ => ()) (fun _ _ _ => [[0]]) ()
    [[1]] [1] [1] [1] [[1]]
    (by intro r hr; simp only [List.mem_singleton] at hr; subst hr; simp)
    (by simp)
    (by intro r hr; simp only [List.mem_singleton] at hr; subst hr; simp)
    (by simp)
    (by intro r hr; simp only [List.mem_singleton] at hr; subst hr;
        simp)).2 0 0 (by norm_num) (by norm_num)

/-- Closed witness for C10 at a concrete map set. -/
theorem apply_delta_index_spec_witness :
    (apply_delta_index ⟨[[1]], [[1]], [[2]], [[3]]⟩ [1] 0).nue = [[2]]
    ∧ (apply_delta_index ⟨[[1]], [[1]], [[2]], [[3]]⟩ [1] 0).nuebar = [[3]]
    ∧ sum2 (apply_delta_index ⟨[[1]], [[1]], [[2]], [[3]]⟩ [1] 0).numu
        = sum2 [[1]]
    ∧ sum2 (apply_delta_index ⟨[[1]], [[1]], [[2]], [[3]]⟩ [1] 0).numubar
        = sum2 [[1]]
    ∧ compute_outputs_sys ⟨[[1]], [[1]], [[2]], [[3]]⟩ 2 1 0 [1]
      = (if (2:ℝ) ≠ 1 ∨ (1:ℝ) ≠ 1 then
          (let m : FluxMaps := ⟨[[1]], [[1]], [[2]], [[3]]⟩
           let m := if (2:ℝ) ≠ 1 then apply_nue_numu_ratio m 2 else m
           if (1:ℝ) ≠ 1 then apply_nu_nubar_ratio m 1 else m)
         else ⟨[[1]], [[1]], [[2]], [[3]]⟩) :=
  apply_delta_index_spec ⟨[[1]], [[1]], [[2]], [[3]]⟩ [1] 0 2 1
    (by norm_num [sum2, delta_index_scale, Real.rpow_zero])
    (by norm_num [sum2, delta_index_scale, Real.rpow_zero])

/-- Closed witness for C8 at a concrete pair of one-bin maps. -/
theorem apply_ratio_scale_spec_witness :
    ent (apply_ratio_scale [[1]] [[2]] 2).1 0 0
        + ent (apply_ratio_scale [[1]] [[2]] 2).2 0 0
      = ent [[1]] 0 0 + ent [[2]] 0 0
    ∧ ent (apply_ratio_scale [[1]] [[2]] 2).1 0 0
        / ent (apply_ratio_scale [[1]] [[2]] 2).2 0 0
      = 2 * (ent [[1]] 0 0 / ent [[2]] 0 0) :=
  (apply_ratio_scale_spec [[1]] [[2]] 2 (by simp)
    (by intro i hi; simp only [List.length_singleton, Nat.lt_one_iff] at hi
        subst hi; simp)
    (by intro i j hi hj
        simp only [List.length_singleton, Nat.lt_one_iff] at hi
        subst hi
        simp only [List.getD_cons_zero, List.length_singleton, Nat.lt_one_iff] at hj
        subst hj; norm_num [ent])
    (by intro i j hi hj
        simp only [List.length_singleton, Nat.lt_one_iff] at hi
        subst hi
        simp only [List.getD_cons_zero, List.length_singleton, Nat.lt_one_iff] at hj
        subst hj; norm_num [ent])
    (by norm_num)).1 0 0 (by norm_num)
    (by simp only [List.getD_cons_zero, List.length_singleton]; omega)
